import Mathlib

/-!
Verification of the martingale ladder engine in `gold_bot_quick.py`.

The development is a shallow embedding of the `StrategyEngine` class and of
the configuration dictionary `CONFIG`.  Python floats are modelled as exact
rationals (`ℚ`); `round(x, 2)` is modelled by `round2` below.  The
simulation path of the engine (`use_mt5=False`) is the one embedded: the
`use_mt5=True` branches only route the same decisions to an external broker
and do not change the engine fields that the properties below speak about.
Events returned by `check_events` (the Python strings `"tp_hit"`,
`"filled"`, `"stopped"` and the `None` result) are modelled by
`Option Event`; the external order actions the engine asks for (opening a
position, closing all positions) are modelled by the `Intent` list that the
embedded `check_events` returns alongside the new state.
-/

namespace GoldBot

/-- Model of Python `round(q, 2)` (round to 2 decimal places).  Python
rounds half to even; this model rounds half up.  The two agree on every
input that is not an exact odd multiple of `1/200`, and every concrete
value appearing in this development is an exact multiple of `1/100`, where
both are the identity. -/
def round2 (q : ℚ) : ℚ := ((⌊100 * q + 1 / 2⌋ : ℤ) : ℚ) / 100

/-- Side of an open trade: the Python strings `"buy"` / `"sell"`. -/
inductive Side where
  | buy
  | sell
deriving DecidableEq, Repr

/-- Kind of a pending conditional order: the Python strings
`"buy_stop"` / `"sell_stop"`. -/
inductive StopKind where
  | buy_stop
  | sell_stop
deriving DecidableEq, Repr

/-- An open trade: the Python dict with keys side, entry, lot, tp stored in
`StrategyEngine.active_positions`. -/
structure Position where
  side : Side
  entry : ℚ
  lot : ℚ
  tp : ℚ
deriving DecidableEq, Repr

/-- A pending conditional order: the Python dict with keys type, price,
lot, tp, step stored in `StrategyEngine.pending_orders`. -/
structure PendingOrder where
  kind : StopKind
  price : ℚ
  lot : ℚ
  tp : ℚ
  step : ℕ
deriving DecidableEq, Repr

/-- The strategy-relevant part of the Python `CONFIG` dict. -/
structure Config where
  base_lot : ℚ
  gap : ℚ
  tp_points : ℚ
  max_steps : ℕ
deriving DecidableEq, Repr

/-- The values in the source `CONFIG`:
`base_lot = 0.01`, `gap = 3.0`, `tp_points = 5.0`, `max_steps = 6`. -/
def defaultConfig : Config :=
  { base_lot := 1 / 100, gap := 3, tp_points := 5, max_steps := 6 }

/-- The mutable fields of a `StrategyEngine` instance. -/
structure EngineState where
  base_price : ℚ
  current_step : ℕ
  current_lot : ℚ
  pending_side : Side
  active_positions : List Position
  pending_orders : List PendingOrder
deriving DecidableEq, Repr

/-- Events returned by `check_events`: `Option.none` models Python `None`. -/
inductive Event where
  | tp_hit
  | filled
  | stopped
deriving DecidableEq, Repr

/-- Order actions the engine asks the outside world to perform. -/
inductive Intent where
  | openPos (side : Side) (entry lot tp : ℚ)
  | closeAll
deriving DecidableEq, Repr

/-- `StrategyEngine.reset`: zero the counters, clear the books, leave
`base_price` untouched. -/
def reset (cfg : Config) (s : EngineState) : EngineState :=
  { s with
    current_step := 0
    current_lot := cfg.base_lot
    pending_side := Side.buy
    active_positions := []
    pending_orders := [] }

/-- `StrategyEngine.__init__(base_price)`. -/
def mkEngine (cfg : Config) (base : ℚ) : EngineState :=
  reset cfg
    { base_price := base, current_step := 0, current_lot := cfg.base_lot,
      pending_side := Side.buy, active_positions := [], pending_orders := [] }

/-- `StrategyEngine._place_trade_sim`: append the position record. -/
def place_trade_sim (s : EngineState) (side : Side) (entry lot tp : ℚ) :
    EngineState :=
  { s with active_positions :=
      s.active_positions ++ [{ side := side, entry := entry, lot := lot, tp := tp }] }

/-- `StrategyEngine.place_initial_buy` (on the path where `base_price` is
set, as after `start_cycle`): open the rung-0 buy, enqueue the first
`sell_stop`, set `current_step = 1` and `pending_side = "sell"`. -/
def place_initial_buy (cfg : Config) (s : EngineState) : EngineState :=
  let entry := s.base_price
  let tp := round2 (entry + cfg.tp_points)
  let s1 := place_trade_sim s Side.buy entry s.current_lot tp
  let sell_price := round2 (s.base_price - cfg.gap)
  let sell_lot := round2 (s.current_lot * 2)
  let sell_tp := round2 (sell_price - cfg.tp_points)
  { s1 with
    pending_orders := s1.pending_orders ++
      [{ kind := StopKind.sell_stop, price := sell_price, lot := sell_lot,
         tp := sell_tp, step := 1 }]
    current_step := 1
    pending_side := Side.sell }

/-- `StrategyEngine.start_cycle(start_price)`: reset, adopt the new base
price, place the initial buy. -/
def start_cycle (cfg : Config) (s : EngineState) (start_price : ℚ) :
    EngineState :=
  place_initial_buy cfg { reset cfg s with base_price := start_price }

/-- The take-profit test of `check_events` step 1: a buy position fires at
`price ≥ tp`, a sell position at `price ≤ tp`. -/
def tpFires (price : ℚ) (pos : Position) : Prop :=
  (pos.side = Side.buy ∧ pos.tp ≤ price) ∨
  (pos.side = Side.sell ∧ price ≤ pos.tp)

instance (price : ℚ) (pos : Position) : Decidable (tpFires price pos) := by
  unfold tpFires; infer_instance

/-- Whether some open position take-profit fires at `price` (the loop of
`check_events` step 1 returns at its first hit; its net effect only depends
on whether any position fires). -/
def hasTPHit (price : ℚ) (l : List Position) : Prop :=
  ∃ pos ∈ l, tpFires price pos

instance (price : ℚ) (l : List Position) : Decidable (hasTPHit price l) :=
  List.decidableBEx _ l

/-- The trigger test of `check_events` step 2: a `sell_stop` fills at
`price ≤ trigger`, a `buy_stop` at `price ≥ trigger`. -/
def triggered (price : ℚ) (p : PendingOrder) : Prop :=
  (p.kind = StopKind.sell_stop ∧ price ≤ p.price) ∨
  (p.kind = StopKind.buy_stop ∧ p.price ≤ price)

instance (price : ℚ) (p : PendingOrder) : Decidable (triggered price p) := by
  unfold triggered; infer_instance

/-- First pending order (in list order) whose trigger test passes: the
`for p in list(self.pending_orders)` loop returns at its first match. -/
def findTriggered (price : ℚ) : List PendingOrder → Option PendingOrder
  | [] => none
  | p :: rest =>
    if triggered price p then some p else findTriggered price rest

/-- `StrategyEngine.close_all_and_reset` (simulation path): clear both
books, then `reset`. -/
def close_all_and_reset (cfg : Config) (s : EngineState) : EngineState :=
  reset cfg { s with active_positions := [], pending_orders := [] }

/-- The body of the `sell_stop` branch of `check_events` step 2: open the
sell position at the trigger price, remove the filled order, enqueue the
next `buy_stop` at the base price when `current_step + 1 ≤ max_steps`,
increment `current_step`. -/
def fill_sell_stop (cfg : Config) (s : EngineState) (p : PendingOrder) :
    EngineState :=
  let s1 := place_trade_sim s Side.sell p.price p.lot p.tp
  let removed := s1.pending_orders.erase p
  let next_lot := round2 (cfg.base_lot * 2 ^ p.step)
  let next_price := round2 s.base_price
  let next_tp := round2 (next_price + cfg.tp_points)
  { s1 with
    pending_orders :=
      if s.current_step + 1 ≤ cfg.max_steps then
        removed ++
          [{ kind := StopKind.buy_stop, price := next_price, lot := next_lot,
             tp := next_tp, step := p.step + 1 }]
      else removed
    current_step := s.current_step + 1 }

/-- The body of the `buy_stop` branch of `check_events` step 2: symmetric
to `fill_sell_stop`, the next rung being a `sell_stop` at
`base_price - gap`. -/
def fill_buy_stop (cfg : Config) (s : EngineState) (p : PendingOrder) :
    EngineState :=
  let s1 := place_trade_sim s Side.buy p.price p.lot p.tp
  let removed := s1.pending_orders.erase p
  let next_lot := round2 (cfg.base_lot * 2 ^ p.step)
  let next_price := round2 (s.base_price - cfg.gap)
  let next_tp := round2 (next_price - cfg.tp_points)
  { s1 with
    pending_orders :=
      if s.current_step + 1 ≤ cfg.max_steps then
        removed ++
          [{ kind := StopKind.sell_stop, price := next_price, lot := next_lot,
             tp := next_tp, step := p.step + 1 }]
      else removed
    current_step := s.current_step + 1 }

/-- Dispatch a found pending order to its fill branch. -/
def fill_order (cfg : Config) (s : EngineState) (p : PendingOrder) :
    EngineState :=
  match p.kind with
  | StopKind.sell_stop => fill_sell_stop cfg s p
  | StopKind.buy_stop => fill_buy_stop cfg s p

/-- The side of the position a filled stop order opens. -/
def fillSide : StopKind → Side
  | StopKind.sell_stop => Side.sell
  | StopKind.buy_stop => Side.buy

/-- `StrategyEngine.check_events(current_price)` (simulation path),
returning the event, the successor state and the emitted order intents.
Priority order as in the source: (1) take-profit check over the open
positions, (2) pending-fill check, (3) the `current_step > max_steps`
safety stop, (4) otherwise no event and no state change. -/
def check_events (cfg : Config) (s : EngineState) (price : ℚ) :
    Option Event × EngineState × List Intent :=
  if hasTPHit price s.active_positions then
    (some Event.tp_hit, close_all_and_reset cfg s, [Intent.closeAll])
  else
    match findTriggered price s.pending_orders with
    | some p =>
      (some Event.filled, fill_order cfg s p,
        [Intent.openPos (fillSide p.kind) p.price p.lot p.tp])
    | none =>
      if cfg.max_steps < s.current_step then
        (some Event.stopped, close_all_and_reset cfg s, [Intent.closeAll])
      else
        (none, s, [])

/-- A Python float price observation: finite values are exact rationals,
plus the IEEE non-finite values `nan`, `+inf`, `-inf`.  Only comparisons
ever touch the tick price in `check_events` (on a fill the entry price
comes from the stored order, not from the tick), so the non-finite values
never flow into the state. -/
inductive PyFloat where
  | nan
  | pinf
  | ninf
  | fin (q : ℚ)
deriving DecidableEq, Repr

/-- Python `price >= q` for a float `price` and finite `q`: `nan`
compares false, `+inf` true, `-inf` false. -/
def pyGE : PyFloat → ℚ → Prop
  | PyFloat.nan, _ => False
  | PyFloat.pinf, _ => True
  | PyFloat.ninf, _ => False
  | PyFloat.fin v, q => q ≤ v

/-- Python `price <= q` for a float `price` and finite `q`. -/
def pyLE : PyFloat → ℚ → Prop
  | PyFloat.nan, _ => False
  | PyFloat.pinf, _ => False
  | PyFloat.ninf, _ => True
  | PyFloat.fin v, q => v ≤ q

instance (x : PyFloat) (q : ℚ) : Decidable (pyGE x q) := by
  cases x with
  | nan => exact isFalse fun h => h
  | pinf => exact isTrue (by simp [pyGE])
  | ninf => exact isFalse fun h => h
  | fin v => exact inferInstanceAs (Decidable (q ≤ v))

instance (x : PyFloat) (q : ℚ) : Decidable (pyLE x q) := by
  cases x with
  | nan => exact isFalse fun h => h
  | pinf => exact isFalse fun h => h
  | ninf => exact isTrue (by simp [pyLE])
  | fin v => exact inferInstanceAs (Decidable (v ≤ q))

/-- `tpFires` for a float tick price. -/
def tpFiresF (price : PyFloat) (pos : Position) : Prop :=
  (pos.side = Side.buy ∧ pyGE price pos.tp) ∨
  (pos.side = Side.sell ∧ pyLE price pos.tp)

instance (price : PyFloat) (pos : Position) : Decidable (tpFiresF price pos) := by
  unfold tpFiresF; infer_instance

/-- `hasTPHit` for a float tick price. -/
def hasTPHitF (price : PyFloat) (l : List Position) : Prop :=
  ∃ pos ∈ l, tpFiresF price pos

instance (price : PyFloat) (l : List Position) : Decidable (hasTPHitF price l) :=
  List.decidableBEx _ l

/-- `triggered` for a float tick price. -/
def triggeredF (price : PyFloat) (p : PendingOrder) : Prop :=
  (p.kind = StopKind.sell_stop ∧ pyLE price p.price) ∨
  (p.kind = StopKind.buy_stop ∧ pyGE price p.price)

instance (price : PyFloat) (p : PendingOrder) : Decidable (triggeredF price p) := by
  unfold triggeredF; infer_instance

/-- `findTriggered` for a float tick price. -/
def findTriggeredF (price : PyFloat) : List PendingOrder → Option PendingOrder
  | [] => none
  | p :: rest =>
    if triggeredF price p then some p else findTriggeredF price rest

/-- `StrategyEngine.check_events` on a raw Python-float tick price.  This
is the same function as `check_events`, with the two comparison relations
interpreted over the full float domain; it exhibits what the source does
on `nan` and `±inf` inputs, since the source contains no finiteness
check. -/
def check_eventsF (cfg : Config) (s : EngineState) (price : PyFloat) :
    Option Event × EngineState × List Intent :=
  if hasTPHitF price s.active_positions then
    (some Event.tp_hit, close_all_and_reset cfg s, [Intent.closeAll])
  else
    match findTriggeredF price s.pending_orders with
    | some p =>
      (some Event.filled, fill_order cfg s p,
        [Intent.openPos (fillSide p.kind) p.price p.lot p.tp])
    | none =>
      if cfg.max_steps < s.current_step then
        (some Event.stopped, close_all_and_reset cfg s, [Intent.closeAll])
      else
        (none, s, [])

/-- States reachable by one `start_cycle` call followed by any sequence of
`check_events` ticks. -/
inductive Reach (cfg : Config) : EngineState → Prop where
  | start (s : EngineState) (b : ℚ) : Reach cfg (start_cycle cfg s b)
  | tick (s : EngineState) (price : ℚ) :
      Reach cfg s → Reach cfg (check_events cfg s price).2.1

/-- States reachable within a single cycle (no terminal event yet), paired
with the number of `filled` events observed since `start_cycle`. -/
inductive InCycle (cfg : Config) : EngineState → ℕ → Prop where
  | start (s : EngineState) (b : ℚ) : InCycle cfg (start_cycle cfg s b) 0
  | tick_none (s : EngineState) (price : ℚ) (n : ℕ) :
      InCycle cfg s n → (check_events cfg s price).1 = none →
      InCycle cfg (check_events cfg s price).2.1 n
  | tick_fill (s : EngineState) (price : ℚ) (n : ℕ) :
      InCycle cfg s n → (check_events cfg s price).1 = some Event.filled →
      InCycle cfg (check_events cfg s price).2.1 (n + 1)

lemma buy_ne_sell : Side.buy ≠ Side.sell := fun h => nomatch h

lemma sell_ne_buy : Side.sell ≠ Side.buy := fun h => nomatch h

lemma sellStop_ne_buyStop : StopKind.sell_stop ≠ StopKind.buy_stop := fun h => nomatch h

lemma buyStop_ne_sellStop : StopKind.buy_stop ≠ StopKind.sell_stop := fun h => nomatch h

lemma findTriggered_eq_some {price : ℚ} {l : List PendingOrder} {p : PendingOrder}
    (h : findTriggered price l = some p) : p ∈ l ∧ triggered price p := by
  induction l with
  | nil => simp [findTriggered] at h
  | cons q rest ih =>
    rw [findTriggered] at h
    by_cases hq : triggered price q
    · rw [if_pos hq] at h
      obtain rfl : q = p := by injection h
      exact ⟨List.mem_cons_self _ _, hq⟩
    · rw [if_neg hq] at h
      obtain ⟨hm, ht⟩ := ih h
      exact ⟨List.mem_cons_of_mem _ hm, ht⟩

lemma check_events_of_tp {cfg : Config} {s : EngineState} {price : ℚ}
    (h : hasTPHit price s.active_positions) :
    check_events cfg s price =
      (some Event.tp_hit, close_all_and_reset cfg s, [Intent.closeAll]) := by
  rw [check_events, if_pos h]

lemma check_events_of_fill {cfg : Config} {s : EngineState} {price : ℚ}
    {p : PendingOrder} (h : ¬ hasTPHit price s.active_positions)
    (hf : findTriggered price s.pending_orders = some p) :
    check_events cfg s price =
      (some Event.filled, fill_order cfg s p,
        [Intent.openPos (fillSide p.kind) p.price p.lot p.tp]) := by
  rw [check_events, if_neg h, hf]

lemma check_events_of_stopped {cfg : Config} {s : EngineState} {price : ℚ}
    (h : ¬ hasTPHit price s.active_positions)
    (hf : findTriggered price s.pending_orders = none)
    (hs : cfg.max_steps < s.current_step) :
    check_events cfg s price =
      (some Event.stopped, close_all_and_reset cfg s, [Intent.closeAll]) := by
  rw [check_events, if_neg h, hf]
  exact if_pos hs

lemma check_events_of_none {cfg : Config} {s : EngineState} {price : ℚ}
    (h : ¬ hasTPHit price s.active_positions)
    (hf : findTriggered price s.pending_orders = none)
    (hs : ¬ cfg.max_steps < s.current_step) :
    check_events cfg s price = (none, s, []) := by
  rw [check_events, if_neg h, hf]
  exact if_neg hs

/-- Case analysis on the successor state of a tick. -/
lemma check_events_state_cases (cfg : Config) (s : EngineState) (price : ℚ) :
    (check_events cfg s price).2.1 = close_all_and_reset cfg s ∨
    (∃ p, findTriggered price s.pending_orders = some p ∧
      (check_events cfg s price).2.1 = fill_order cfg s p) ∨
    (check_events cfg s price).2.1 = s := by
  by_cases h : hasTPHit price s.active_positions
  · exact Or.inl (by rw [check_events_of_tp h])
  · cases hf : findTriggered price s.pending_orders with
    | some p =>
      exact Or.inr (Or.inl ⟨p, rfl, by rw [check_events_of_fill h hf]⟩)
    | none =>
      by_cases hs : cfg.max_steps < s.current_step
      · exact Or.inl (by rw [check_events_of_stopped h hf hs])
      · exact Or.inr (Or.inr (by rw [check_events_of_none h hf hs]))

/-- A `filled` result can only come from the pending-fill branch. -/
lemma filled_inv {cfg : Config} {s : EngineState} {price : ℚ}
    (h : (check_events cfg s price).1 = some Event.filled) :
    ¬ hasTPHit price s.active_positions ∧
    ∃ p, findTriggered price s.pending_orders = some p ∧
      check_events cfg s price =
        (some Event.filled, fill_order cfg s p,
          [Intent.openPos (fillSide p.kind) p.price p.lot p.tp]) := by
  by_cases h1 : hasTPHit price s.active_positions
  · rw [check_events_of_tp h1] at h
    exact absurd h (by simp)
  · refine ⟨h1, ?_⟩
    cases hf : findTriggered price s.pending_orders with
    | some p => exact ⟨p, rfl, check_events_of_fill h1 hf⟩
    | none =>
      by_cases hs : cfg.max_steps < s.current_step
      · rw [check_events_of_stopped h1 hf hs] at h
        exact absurd h (by simp)
      · rw [check_events_of_none h1 hf hs] at h
        exact absurd h (by simp)

/-- A tick that reports no event leaves the state unchanged and emits no
intent. -/
lemma none_inv {cfg : Config} {s : EngineState} {price : ℚ}
    (h : (check_events cfg s price).1 = none) :
    check_events cfg s price = (none, s, []) := by
  by_cases h1 : hasTPHit price s.active_positions
  · rw [check_events_of_tp h1] at h
    exact absurd h (by simp)
  · cases hf : findTriggered price s.pending_orders with
    | some p =>
      rw [check_events_of_fill h1 hf] at h
      exact absurd h (by simp)
    | none =>
      by_cases hs : cfg.max_steps < s.current_step
      · rw [check_events_of_stopped h1 hf hs] at h
        exact absurd h (by simp)
      · exact check_events_of_none h1 hf hs

/-- Any fill advances the step counter by exactly one. -/
lemma fill_order_step (cfg : Config) (s : EngineState) (p : PendingOrder) :
    (fill_order cfg s p).current_step = s.current_step + 1 := by
  cases p with
  | mk kind price lot tp step =>
    cases kind <;>
      simp [fill_order, fill_sell_stop, fill_buy_stop, place_trade_sim]

/-- Shape of a fill out of a single-order book: the filled order becomes a
position, and the next rung (carrying step index `p.step + 1`) is
enqueued exactly when `current_step + 1 ≤ max_steps`. -/
lemma fill_order_eq (cfg : Config) (s : EngineState) (p : PendingOrder)
    (hp : s.pending_orders = [p]) :
    ∃ o : PendingOrder, o.step = p.step + 1 ∧
      fill_order cfg s p =
        { s with
          active_positions := s.active_positions ++
            [{ side := fillSide p.kind, entry := p.price, lot := p.lot, tp := p.tp }]
          pending_orders :=
            if s.current_step + 1 ≤ cfg.max_steps then [o] else []
          current_step := s.current_step + 1 } := by
  cases p with
  | mk kind price lot tp step =>
    cases kind with
    | sell_stop =>
      refine ⟨PendingOrder.mk StopKind.buy_stop (round2 s.base_price)
        (round2 (cfg.base_lot * 2 ^ step))
        (round2 (round2 s.base_price + cfg.tp_points)) (step + 1), rfl, ?_⟩
      simp [fill_order, fill_sell_stop, place_trade_sim, fillSide, hp]
    | buy_stop =>
      refine ⟨PendingOrder.mk StopKind.sell_stop (round2 (s.base_price - cfg.gap))
        (round2 (cfg.base_lot * 2 ^ step))
        (round2 (round2 (s.base_price - cfg.gap) - cfg.tp_points)) (step + 1), rfl, ?_⟩
      simp [fill_order, fill_buy_stop, place_trade_sim, fillSide, hp]

lemma mem_of_length_le_one {α : Type} {l : List α} {a : α}
    (hm : a ∈ l) (hl : l.length ≤ 1) : l = [a] := by
  cases l with
  | nil => cases hm
  | cons b rest =>
    cases rest with
    | nil =>
      obtain rfl : a = b := by simpa using hm
      rfl
    | cons c rest2 => simp at hl

lemma start_cycle_pending (cfg : Config) (s : EngineState) (b : ℚ) :
    (start_cycle cfg s b).pending_orders =
      [{ kind := StopKind.sell_stop, price := round2 (b - cfg.gap),
         lot := round2 (cfg.base_lot * 2),
         tp := round2 (round2 (b - cfg.gap) - cfg.tp_points), step := 1 }] := by
  simp [start_cycle, place_initial_buy, place_trade_sim, reset]

lemma start_cycle_step (cfg : Config) (s : EngineState) (b : ℚ) :
    (start_cycle cfg s b).current_step = 1 := by
  simp [start_cycle, place_initial_buy, place_trade_sim, reset]

/-- Every reachable state carries at most one pending order. -/
lemma reach_pending_length {cfg : Config} {s : EngineState}
    (h : Reach cfg s) : s.pending_orders.length ≤ 1 := by
  induction h with
  | start s b => rw [start_cycle_pending]; simp
  | tick s price _ ih =>
    rcases check_events_state_cases cfg s price with hc | ⟨p, hf, hc⟩ | hc
    · rw [hc]; simp [close_all_and_reset, reset]
    · rw [hc]
      obtain ⟨hm, -⟩ := findTriggered_eq_some hf
      have hsp := mem_of_length_le_one hm ih
      obtain ⟨o, -, he⟩ := fill_order_eq cfg s p hsp
      rw [he]
      split <;> simp
    · rw [hc]; exact ih

/-- The single-cycle invariant: the step counter is one more than the
number of fills, and the book holds either one pending order whose `step`
field equals the counter (ladder not exhausted) or none at all (counter
just past `max_steps`). -/
def cycleInv (cfg : Config) (s : EngineState) (n : ℕ) : Prop :=
  s.current_step = n + 1 ∧
  ((s.pending_orders = [] ∧ s.current_step = cfg.max_steps + 1) ∨
   (∃ o, s.pending_orders = [o] ∧ o.step = s.current_step ∧
     s.current_step ≤ cfg.max_steps))

lemma inCycle_inv {cfg : Config} (hms : 1 ≤ cfg.max_steps)
    {s : EngineState} {n : ℕ} (h : InCycle cfg s n) : cycleInv cfg s n := by
  induction h with
  | start s b =>
    refine ⟨start_cycle_step cfg s b, Or.inr ⟨_, start_cycle_pending cfg s b, ?_, ?_⟩⟩
    · rw [start_cycle_step]
    · rw [start_cycle_step]; exact hms
  | tick_none s price n _ hev ih =>
    rw [none_inv hev]; exact ih
  | tick_fill s price n _ hev ih =>
    obtain ⟨-, p, hf, he⟩ := filled_inv hev
    obtain ⟨hstep, hbook⟩ := ih
    rcases hbook with ⟨hnil, -⟩ | ⟨o, ho, hos, hole⟩
    · rw [hnil] at hf
      simp [findTriggered] at hf
    · obtain ⟨hm, -⟩ := findTriggered_eq_some hf
      rw [ho] at hm
      obtain rfl : p = o := by simpa using hm
      obtain ⟨o2, ho2step, heq⟩ := fill_order_eq cfg s p ho
      rw [he]
      simp only [heq]
      constructor
      · simp [hstep]
      · by_cases hcap : s.current_step + 1 ≤ cfg.max_steps
        · refine Or.inr ⟨o2, ?_, ?_, ?_⟩
          · simp [hcap]
          · simp [ho2step, hos]
          · simpa using hcap
        · refine Or.inl ⟨?_, ?_⟩
          · simp [hcap]
          · have : s.current_step = cfg.max_steps := le_antisymm hole (by omega)
            simp [this]

/-- C1: evaluation of the code at the failing input.  In the reachable
state one fill after `start_cycle(3300)` (default configuration), the
pending order at rung 2 carries lot `1/50 = baseLot * 2^1`, not
`baseLot * 2^2 = 1/25`: the source computes the next lot from the step
index of the order being filled instead of the step index it assigns to
the new order, so rung 2 does not double rung 1. -/
theorem c1_rung2_lot_eval :
    (check_events defaultConfig
        (start_cycle defaultConfig (mkEngine defaultConfig 3300) 3300)
        3297).2.1.pending_orders =
      [PendingOrder.mk StopKind.buy_stop 3300 (1 / 50) 3305 2] ∧
    defaultConfig.base_lot * 2 ^ (2 : ℕ) ≠ (1 / 50 : ℚ) ∧
    Reach defaultConfig
      (check_events defaultConfig
        (start_cycle defaultConfig (mkEngine defaultConfig 3300) 3300)
        3297).2.1 := by
  refine ⟨?_, by norm_num [defaultConfig], Reach.tick _ 3297 (Reach.start _ 3300)⟩
  norm_num [start_cycle, mkEngine, reset, place_initial_buy, place_trade_sim,
    check_events, hasTPHit, tpFires, findTriggered, triggered, fill_order,
    fill_sell_stop, fillSide, round2, defaultConfig,
    buy_ne_sell, sell_ne_buy, sellStop_ne_buyStop, buyStop_ne_sellStop,
    List.erase_cons]

/-- C2: evaluation of the code on the specified scenario
(baseLot=0.01, gap=3, tpPoints=5, maxSteps=6).  The trace matches the
claim except at one point: the pending order enqueued by the fill at 3297
has lot `1/50` (0.02), not 0.04 as the claim states; the source computes
it as `base_lot * 2^(p.step)` with `p.step = 1` while labelling the new
order `step = 2`. -/
theorem c2_scenario_eval :
    start_cycle defaultConfig (mkEngine defaultConfig 3300) 3300 =
      { base_price := 3300, current_step := 1, current_lot := 1 / 100,
        pending_side := Side.sell,
        active_positions := [Position.mk Side.buy 3300 (1 / 100) 3305],
        pending_orders := [PendingOrder.mk StopKind.sell_stop 3297 (1 / 50) 3292 1] } ∧
    check_events defaultConfig
      { base_price := 3300, current_step := 1, current_lot := 1 / 100,
        pending_side := Side.sell,
        active_positions := [Position.mk Side.buy 3300 (1 / 100) 3305],
        pending_orders := [PendingOrder.mk StopKind.sell_stop 3297 (1 / 50) 3292 1] }
      3297 =
      (some Event.filled,
        { base_price := 3300, current_step := 2, current_lot := 1 / 100,
          pending_side := Side.sell,
          active_positions := [Position.mk Side.buy 3300 (1 / 100) 3305,
            Position.mk Side.sell 3297 (1 / 50) 3292],
          pending_orders := [PendingOrder.mk StopKind.buy_stop 3300 (1 / 50) 3305 2] },
        [Intent.openPos Side.sell 3297 (1 / 50) 3292]) ∧
    check_events defaultConfig
      { base_price := 3300, current_step := 2, current_lot := 1 / 100,
        pending_side := Side.sell,
        active_positions := [Position.mk Side.buy 3300 (1 / 100) 3305,
          Position.mk Side.sell 3297 (1 / 50) 3292],
        pending_orders := [PendingOrder.mk StopKind.buy_stop 3300 (1 / 50) 3305 2] }
      3305 =
      (some Event.tp_hit,
        { base_price := 3300, current_step := 0, current_lot := 1 / 100,
          pending_side := Side.buy, active_positions := [], pending_orders := [] },
        [Intent.closeAll]) := by
  refine ⟨?_, ?_, ?_⟩
  · norm_num [start_cycle, mkEngine, reset, place_initial_buy, place_trade_sim,
      round2, defaultConfig]
  · norm_num [check_events, hasTPHit, tpFires, findTriggered, triggered,
      fill_order, fill_sell_stop, place_trade_sim, fillSide, round2, defaultConfig,
      buy_ne_sell, sell_ne_buy, sellStop_ne_buyStop, buyStop_ne_sellStop,
      List.erase_cons]
  · norm_num [check_events, hasTPHit, tpFires, close_all_and_reset, reset,
      defaultConfig, buy_ne_sell, sell_ne_buy]

lemma hasTPHitF_nan (l : List Position) : ¬ hasTPHitF PyFloat.nan l := by
  simp [hasTPHitF, tpFiresF, pyGE, pyLE]

lemma findTriggeredF_nan (l : List PendingOrder) :
    findTriggeredF PyFloat.nan l = none := by
  induction l with
  | nil => rfl
  | cons p rest ih => simp [findTriggeredF, triggeredF, pyGE, pyLE, ih]

lemma tpFiresF_fin (q : ℚ) (pos : Position) :
    tpFiresF (PyFloat.fin q) pos ↔ tpFires q pos := by
  simp [tpFiresF, tpFires, pyGE, pyLE]

lemma hasTPHitF_fin (q : ℚ) (l : List Position) :
    hasTPHitF (PyFloat.fin q) l ↔ hasTPHit q l := by
  simp only [hasTPHitF, hasTPHit, tpFiresF_fin]

lemma findTriggeredF_fin (q : ℚ) (l : List PendingOrder) :
    findTriggeredF (PyFloat.fin q) l = findTriggered q l := by
  induction l with
  | nil => rfl
  | cons p rest ih =>
    rw [findTriggeredF, findTriggered]
    by_cases ht : triggered q p
    · rw [if_pos ht, if_pos]
      simpa [triggeredF, triggered, pyGE, pyLE] using ht
    · rw [if_neg ht, if_neg, ih]
      simpa [triggeredF, triggered, pyGE, pyLE] using ht

/-- C3 (amended): the source contains no finiteness validation for the
tick price.  A NaN price compares false against every threshold, so a NaN
tick can neither hit a take profit nor fill a pending order: it falls
through to the step-limit check, behaving exactly like any non-matching
price (no state change and no event unless the safety stop is already
armed).  A finite price behaves identically under the float model, and an
infinite price is processed by the ordinary comparison rules rather than
rejected (see the counterexample). -/
theorem c3_no_finiteness_check (cfg : Config) (s : EngineState) :
    (check_eventsF cfg s PyFloat.nan =
      if cfg.max_steps < s.current_step then
        (some Event.stopped, close_all_and_reset cfg s, [Intent.closeAll])
      else (none, s, [])) ∧
    ∀ q : ℚ, check_eventsF cfg s (PyFloat.fin q) = check_events cfg s q := by
  constructor
  · rw [check_eventsF, if_neg (hasTPHitF_nan _), findTriggeredF_nan]
  · intro q
    rw [check_eventsF, check_events, findTriggeredF_fin]
    by_cases h : hasTPHit q s.active_positions
    · rw [if_pos ((hasTPHitF_fin q _).mpr h), if_pos h]
    · rw [if_neg (fun hc => h ((hasTPHitF_fin q _).mp hc)), if_neg h]

/-- C3 counterexample: in the state produced by start_cycle(3300) under
the default configuration, a tick at +infinity is not rejected: it
triggers the rung-0 take profit, emits tp_hit and resets the state, so
the engine state is not left unchanged as the claim requires. -/
theorem c3_cex :
    (check_eventsF defaultConfig
        { base_price := 3300, current_step := 1, current_lot := 1 / 100,
          pending_side := Side.sell,
          active_positions := [Position.mk Side.buy 3300 (1 / 100) 3305],
          pending_orders := [PendingOrder.mk StopKind.sell_stop 3297 (1 / 50) 3292 1] }
        PyFloat.pinf).1 = some Event.tp_hit ∧
    (check_eventsF defaultConfig
        { base_price := 3300, current_step := 1, current_lot := 1 / 100,
          pending_side := Side.sell,
          active_positions := [Position.mk Side.buy 3300 (1 / 100) 3305],
          pending_orders := [PendingOrder.mk StopKind.sell_stop 3297 (1 / 50) 3292 1] }
        PyFloat.pinf).2.1 ≠
      { base_price := 3300, current_step := 1, current_lot := 1 / 100,
        pending_side := Side.sell,
        active_positions := [Position.mk Side.buy 3300 (1 / 100) 3305],
        pending_orders := [PendingOrder.mk StopKind.sell_stop 3297 (1 / 50) 3292 1] } := by
  constructor
  · rw [check_eventsF, if_pos]
    exact ⟨_, List.mem_cons_self _ _, Or.inl ⟨rfl, trivial⟩⟩
  · rw [check_eventsF, if_pos]
    · intro hc
      have : (0 : ℕ) = 1 := congrArg EngineState.current_step hc
      exact absurd this (by omega)
    · exact ⟨_, List.mem_cons_self _ _, Or.inl ⟨rfl, trivial⟩⟩

/-- C4 (amended): calling check_events with no active cycle (empty books
and a zero step counter, the state after construction or after a
terminal reset) returns the no-event result, emits no intent and leaves
the state unchanged; the source defines no InvalidState signal at all. -/
theorem c4_idle_no_event (cfg : Config) (s : EngineState) (price : ℚ)
    (hpos : s.active_positions = []) (hpend : s.pending_orders = [])
    (hstep : s.current_step = 0) :
    check_events cfg s price = (none, s, []) := by
  apply check_events_of_none
  · rw [hpos]; simp [hasTPHit]
  · rw [hpend]; rfl
  · rw [hstep]; simp

/-- C4 counterexample: a freshly constructed engine (no start_cycle ever
performed) processes a tick without any error signal: the call returns
the ordinary None event, refuting the claim that an InvalidState error is
signalled. -/
theorem c4_cex :
    check_events defaultConfig (mkEngine defaultConfig 3300) 3300 =
      (none, mkEngine defaultConfig 3300, []) := by
  apply check_events_of_none
  · simp [mkEngine, reset, hasTPHit]
  · rfl
  · simp [mkEngine, reset]

/-- C4 witness. -/
theorem c4_witness :
    (mkEngine defaultConfig 2500).active_positions = [] ∧
    (mkEngine defaultConfig 2500).pending_orders = [] ∧
    (mkEngine defaultConfig 2500).current_step = 0 ∧
    check_events defaultConfig (mkEngine defaultConfig 2500) 7 =
      (none, mkEngine defaultConfig 2500, []) :=
  ⟨rfl, rfl, rfl, c4_idle_no_event defaultConfig _ 7 rfl rfl rfl⟩

/-- C5 (amended): the step counter equals 1 (not 0) immediately after
start_cycle completes — the source sets current_step = 1 together with
the rung-0 position — and every filled event increments it by exactly 1,
whether or not a next rung was enqueued. -/
theorem c5_step_semantics (cfg : Config) (s : EngineState) (b price : ℚ) :
    (start_cycle cfg s b).current_step = 1 ∧
    ((check_events cfg s price).1 = some Event.filled →
      (check_events cfg s price).2.1.current_step = s.current_step + 1) := by
  refine ⟨start_cycle_step cfg s b, fun hev => ?_⟩
  obtain ⟨-, p, -, he⟩ := filled_inv hev
  rw [he]
  exact fill_order_step cfg s p

/-- C5 counterexample: immediately after start_cycle(3300) the step
counter is 1, not 0 as the claim states. -/
theorem c5_cex :
    (start_cycle defaultConfig (mkEngine defaultConfig 3300) 3300).current_step ≠ 0 := by
  rw [start_cycle_step]
  omega

/-- C5 witness. -/
theorem c5_witness :
    (start_cycle defaultConfig (mkEngine defaultConfig 3300) 3300).current_step = 1 ∧
    (check_events defaultConfig
        { base_price := 3300, current_step := 1, current_lot := 1 / 100,
          pending_side := Side.sell,
          active_positions := [Position.mk Side.buy 3300 (1 / 100) 3305],
          pending_orders := [PendingOrder.mk StopKind.sell_stop 3297 (1 / 50) 3292 1] }
        3297).2.1.current_step =
      ({ base_price := 3300, current_step := 1, current_lot := 1 / 100,
         pending_side := Side.sell,
         active_positions := [Position.mk Side.buy 3300 (1 / 100) 3305],
         pending_orders := [PendingOrder.mk StopKind.sell_stop 3297 (1 / 50) 3292 1] } :
        EngineState).current_step + 1 :=
  ⟨(c5_step_semantics defaultConfig (mkEngine defaultConfig 3300) 3300 0).1,
    (c5_step_semantics defaultConfig _ 3300 3297).2 (by
      norm_num [check_events, hasTPHit, tpFires, findTriggered, triggered,
        defaultConfig, buy_ne_sell, sell_ne_buy, sellStop_ne_buyStop])⟩

/-- C6: whenever some open position take-profit fires (buy at
price ≥ tp, sell at price ≤ tp), check_events returns tp_hit, emits
exactly one close-all intent (a one-element intent list, even when
several positions satisfy their TP at the same price: the scan stops at
the first hit), and leaves positions empty, pending empty and step 0. -/
theorem c6_tp_liquidates (cfg : Config) (s : EngineState) (price : ℚ)
    (h : ∃ pos ∈ s.active_positions,
      (pos.side = Side.buy ∧ pos.tp ≤ price) ∨
      (pos.side = Side.sell ∧ price ≤ pos.tp)) :
    check_events cfg s price =
      (some Event.tp_hit, close_all_and_reset cfg s, [Intent.closeAll]) ∧
    (close_all_and_reset cfg s).active_positions = [] ∧
    (close_all_and_reset cfg s).pending_orders = [] ∧
    (close_all_and_reset cfg s).current_step = 0 :=
  ⟨check_events_of_tp h, rfl, rfl, rfl⟩

/-- C6 witness: a state with two open positions whose TPs both fire at
price 3307 still produces a single tp_hit event and a single close-all
intent. -/
theorem c6_witness :
    (∃ pos ∈ [Position.mk Side.buy 3300 (1 / 100) 3305,
        Position.mk Side.sell 3306 (1 / 50) 3310],
      (pos.side = Side.buy ∧ pos.tp ≤ (3307 : ℚ)) ∨
      (pos.side = Side.sell ∧ (3307 : ℚ) ≤ pos.tp)) ∧
    check_events defaultConfig
      { base_price := 3300, current_step := 2, current_lot := 1 / 100,
        pending_side := Side.sell,
        active_positions := [Position.mk Side.buy 3300 (1 / 100) 3305,
          Position.mk Side.sell 3306 (1 / 50) 3310],
        pending_orders := [] } 3307 =
      (some Event.tp_hit,
        close_all_and_reset defaultConfig
          { base_price := 3300, current_step := 2, current_lot := 1 / 100,
            pending_side := Side.sell,
            active_positions := [Position.mk Side.buy 3300 (1 / 100) 3305,
              Position.mk Side.sell 3306 (1 / 50) 3310],
            pending_orders := [] },
        [Intent.closeAll]) := by
  have h : ∃ pos ∈ [Position.mk Side.buy 3300 (1 / 100) 3305,
      Position.mk Side.sell 3306 (1 / 50) 3310],
      (pos.side = Side.buy ∧ pos.tp ≤ (3307 : ℚ)) ∨
      (pos.side = Side.sell ∧ (3307 : ℚ) ≤ pos.tp) :=
    ⟨Position.mk Side.buy 3300 (1 / 100) 3305, List.mem_cons_self _ _,
      Or.inl ⟨rfl, by norm_num⟩⟩
  exact ⟨h, (c6_tp_liquidates defaultConfig _ 3307 h).1⟩

/-- C7: every reachable state holds at most one pending order, and a tick
returning filled leaves zero or one pending order, zero exactly when
step + 1 > maxSteps held at the time of the fill. -/
theorem c7_pending_at_most_one (cfg : Config) (s : EngineState)
    (h : Reach cfg s) :
    s.pending_orders.length ≤ 1 ∧
    ∀ price, (check_events cfg s price).1 = some Event.filled →
      ((check_events cfg s price).2.1.pending_orders.length = 0 ∨
       (check_events cfg s price).2.1.pending_orders.length = 1) ∧
      ((check_events cfg s price).2.1.pending_orders = [] ↔
        cfg.max_steps < s.current_step + 1) := by
  refine ⟨reach_pending_length h, fun price hev => ?_⟩
  obtain ⟨-, p, hf, he⟩ := filled_inv hev
  obtain ⟨hm, -⟩ := findTriggered_eq_some hf
  have hsp := mem_of_length_le_one hm (reach_pending_length h)
  obtain ⟨o, -, heq⟩ := fill_order_eq cfg s p hsp
  rw [he]
  simp only [heq]
  by_cases hcap : s.current_step + 1 ≤ cfg.max_steps
  · exact ⟨Or.inr (by simp [hcap]), iff_of_false (by simp [hcap]) (by omega)⟩
  · exact ⟨Or.inl (by simp [hcap]), iff_of_true (by simp [hcap]) (by omega)⟩

/-- C7 witness. -/
theorem c7_witness :
    (start_cycle defaultConfig (mkEngine defaultConfig 3300) 3300).pending_orders.length ≤ 1 ∧
    (((check_events defaultConfig
        (start_cycle defaultConfig (mkEngine defaultConfig 3300) 3300)
        3297).2.1.pending_orders.length = 0 ∨
      (check_events defaultConfig
        (start_cycle defaultConfig (mkEngine defaultConfig 3300) 3300)
        3297).2.1.pending_orders.length = 1) ∧
     ((check_events defaultConfig
        (start_cycle defaultConfig (mkEngine defaultConfig 3300) 3300)
        3297).2.1.pending_orders = [] ↔
       defaultConfig.max_steps <
        (start_cycle defaultConfig (mkEngine defaultConfig 3300) 3300).current_step + 1)) := by
  have h := c7_pending_at_most_one defaultConfig _
    (Reach.start (mkEngine defaultConfig 3300) 3300)
  refine ⟨h.1, h.2 3297 ?_⟩
  norm_num [start_cycle, mkEngine, reset, place_initial_buy, place_trade_sim,
    check_events, hasTPHit, tpFires, findTriggered, triggered, round2,
    defaultConfig, buy_ne_sell, sell_ne_buy, sellStop_ne_buyStop]

/-- C8: within one cycle the number of filled events never exceeds
maxSteps + 1 (in fact never exceeds maxSteps); while a pending order
exists the safety-stop condition is false, and once the ladder is
exhausted (no pending order left) the condition step > maxSteps holds, so
the next tick with no TP hit is forced to return stopped. -/
theorem c8_fill_cap (cfg : Config) (hms : 1 ≤ cfg.max_steps)
    (s : EngineState) (n : ℕ) (h : InCycle cfg s n) :
    n ≤ cfg.max_steps + 1 ∧
    (s.pending_orders ≠ [] → s.current_step ≤ cfg.max_steps) ∧
    (s.pending_orders = [] →
      cfg.max_steps < s.current_step ∧
      ∀ price, ¬ hasTPHit price s.active_positions →
        (check_events cfg s price).1 = some Event.stopped) := by
  obtain ⟨hstep, hbook⟩ := inCycle_inv hms h
  rcases hbook with ⟨hnil, hsev⟩ | ⟨o, ho, -, hole⟩
  · refine ⟨by omega, fun hne => absurd hnil hne,
      fun _ => ⟨by omega, fun price htp => ?_⟩⟩
    rw [check_events_of_stopped htp ?_ ?_]
    · rw [hnil]; rfl
    · omega
  · refine ⟨by omega, fun _ => hole, fun hnil => ?_⟩
    rw [ho] at hnil
    exact absurd hnil (by simp)

/-- C8 witness. -/
theorem c8_witness :
    1 ≤ defaultConfig.max_steps ∧
    ((0 : ℕ) ≤ defaultConfig.max_steps + 1 ∧
     ((start_cycle defaultConfig (mkEngine defaultConfig 3300) 3300).pending_orders ≠ [] →
       (start_cycle defaultConfig (mkEngine defaultConfig 3300) 3300).current_step ≤
         defaultConfig.max_steps) ∧
     ((start_cycle defaultConfig (mkEngine defaultConfig 3300) 3300).pending_orders = [] →
       defaultConfig.max_steps <
         (start_cycle defaultConfig (mkEngine defaultConfig 3300) 3300).current_step ∧
       ∀ price, ¬ hasTPHit price
          (start_cycle defaultConfig (mkEngine defaultConfig 3300) 3300).active_positions →
         (check_events defaultConfig
           (start_cycle defaultConfig (mkEngine defaultConfig 3300) 3300) price).1 =
           some Event.stopped)) :=
  ⟨by norm_num [defaultConfig],
    c8_fill_cap defaultConfig (by norm_num [defaultConfig]) _ 0
      (InCycle.start (mkEngine defaultConfig 3300) 3300)⟩

/-- Equality of engine states on every field except the write-only
pending_side bookkeeping flag. -/
def sideAgnostic (a b : EngineState) : Prop :=
  a.base_price = b.base_price ∧ a.current_step = b.current_step ∧
  a.current_lot = b.current_lot ∧ a.active_positions = b.active_positions ∧
  a.pending_orders = b.pending_orders

/-- C9: two-run noninterference for pending_side.  Two states that agree
on everything except pending_side produce the same event, the same
intents, and successor states that again agree on everything except
pending_side, for every tick price: the field is write-only and never
read by a decision. -/
theorem c9_pending_side_noninterference (cfg : Config) (a b : EngineState)
    (price : ℚ) (h : sideAgnostic a b) :
    (check_events cfg a price).1 = (check_events cfg b price).1 ∧
    (check_events cfg a price).2.2 = (check_events cfg b price).2.2 ∧
    sideAgnostic (check_events cfg a price).2.1 (check_events cfg b price).2.1 := by
  cases a with
  | mk abase astep alot aside apos apend =>
    cases b with
    | mk bbase bstep blot bside bpos bpend =>
      obtain ⟨h1, h2, h3, h4, h5⟩ := h
      simp only at h1 h2 h3 h4 h5
      subst h1; subst h2; subst h3; subst h4; subst h5
      by_cases htp : hasTPHit price apos
      · rw [check_events_of_tp htp, check_events_of_tp htp]
        exact ⟨rfl, rfl, rfl, rfl, rfl, rfl, rfl⟩
      · cases hf : findTriggered price apend with
        | some p =>
          rw [check_events_of_fill htp hf, check_events_of_fill htp hf]
          refine ⟨rfl, rfl, ?_⟩
          cases p with
          | mk kind pprice plot ptp pstep =>
            cases kind <;>
              simp [fill_order, fill_sell_stop, fill_buy_stop, place_trade_sim,
                sideAgnostic]
        | none =>
          by_cases hs : cfg.max_steps < astep
          · rw [check_events_of_stopped htp hf hs, check_events_of_stopped htp hf hs]
            exact ⟨rfl, rfl, rfl, rfl, rfl, rfl, rfl⟩
          · rw [check_events_of_none htp hf hs, check_events_of_none htp hf hs]
            exact ⟨rfl, rfl, rfl, rfl, rfl, rfl, rfl⟩

/-- C9 witness: two concrete states differing only in pending_side. -/
theorem c9_witness :
    sideAgnostic
      { base_price := 3300, current_step := 1, current_lot := 1 / 100,
        pending_side := Side.sell,
        active_positions := [Position.mk Side.buy 3300 (1 / 100) 3305],
        pending_orders := [PendingOrder.mk StopKind.sell_stop 3297 (1 / 50) 3292 1] }
      { base_price := 3300, current_step := 1, current_lot := 1 / 100,
        pending_side := Side.buy,
        active_positions := [Position.mk Side.buy 3300 (1 / 100) 3305],
        pending_orders := [PendingOrder.mk StopKind.sell_stop 3297 (1 / 50) 3292 1] } ∧
    (check_events defaultConfig
      { base_price := 3300, current_step := 1, current_lot := 1 / 100,
        pending_side := Side.sell,
        active_positions := [Position.mk Side.buy 3300 (1 / 100) 3305],
        pending_orders := [PendingOrder.mk StopKind.sell_stop 3297 (1 / 50) 3292 1] }
      3297).1 =
    (check_events defaultConfig
      { base_price := 3300, current_step := 1, current_lot := 1 / 100,
        pending_side := Side.buy,
        active_positions := [Position.mk Side.buy 3300 (1 / 100) 3305],
        pending_orders := [PendingOrder.mk StopKind.sell_stop 3297 (1 / 50) 3292 1] }
      3297).1 := by
  have h : sideAgnostic
      { base_price := 3300, current_step := 1, current_lot := 1 / 100,
        pending_side := Side.sell,
        active_positions := [Position.mk Side.buy 3300 (1 / 100) 3305],
        pending_orders := [PendingOrder.mk StopKind.sell_stop 3297 (1 / 50) 3292 1] }
      { base_price := 3300, current_step := 1, current_lot := 1 / 100,
        pending_side := Side.buy,
        active_positions := [Position.mk Side.buy 3300 (1 / 100) 3305],
        pending_orders := [PendingOrder.mk StopKind.sell_stop 3297 (1 / 50) 3292 1] } :=
    ⟨rfl, rfl, rfl, rfl, rfl⟩
  exact ⟨h, (c9_pending_side_noninterference defaultConfig _ _ 3297 h).1⟩

/-- C10: check_events never modifies base_price — the tp_hit and stopped
resets clear the books and the step counter but keep the previous base
price — and only an explicit start_cycle assigns a new one. -/
theorem c10_base_price_frame (cfg : Config) (s : EngineState) (price b : ℚ) :
    (check_events cfg s price).2.1.base_price = s.base_price ∧
    (start_cycle cfg s b).base_price = b := by
  constructor
  · rcases check_events_state_cases cfg s price with hc | ⟨p, -, hc⟩ | hc <;> rw [hc]
    · rfl
    · cases p with
      | mk kind pprice plot ptp pstep =>
        cases kind <;>
          simp [fill_order, fill_sell_stop, fill_buy_stop, place_trade_sim]
  · simp [start_cycle, place_initial_buy, place_trade_sim, reset]

end GoldBot
